import Mathlib

/-! Formal model of `src/scrape.py` (TeamRankings ATS-trends scraper).

The Python source is shallowly embedded as executable Lean definitions:

* Python `dict` objects (insertion-ordered, unique keys) are association
  lists `List (String × String)` together with `dictInsert` / `dictOfPairs`,
  which reproduce `dict(zip(...))` including its collapse of duplicate keys.
* A parsed HTML document is reduced to the list of its `<table>` elements in
  document order (`soup.find("table")` is `List.head?`); each `<tr>` carries
  the raw text of its `<th>` and `<td>` cells, and `get_text(strip=True)` is
  modelled by `pystrip` (Python `str.strip()` on the ASCII whitespace set).
* `json.dumps(row, sort_keys=True, ensure_ascii=False)` is modelled by
  `json_dumps_sorted` (insertion sort on keys, JSON string escaping, compact
  `", "` / `": "` separators), UTF-8 encoding by `utf8Encode`, and
  `hashlib.sha256(...).hexdigest()` by a full SHA-256 implementation over
  byte lists (`sha256words` / `hexdigest`).
* The Postgres tables are lists of records; the `insert ... on conflict
  (league, team, scrape_date) do update set ...` statement is `upsert_trend`;
  the `with engine.begin()` transaction of `main` is `main_txn` / `visible`.
-/

namespace Scrape

/-- Python `str.strip()` whitespace test, ASCII part: space, `\t`, `\n`,
`\r`, `\x0b`, `\x0c`.  (Python also strips some further Unicode whitespace;
that is immaterial for the properties proved here.) -/
def isPySpace (c : Char) : Bool :=
  c == ' ' || c == '\t' || c == '\n' || c == '\r' || c == '\x0b' || c == '\x0c'

/-- Python `str.strip()`: remove leading and trailing whitespace. -/
def pystrip (s : String) : String :=
  String.mk (((s.data.dropWhile isPySpace).reverse.dropWhile isPySpace).reverse)

/-- One Python `dict` insertion step: an existing key is updated in place
(keeping its position), a new key is appended at the end. -/
def dictInsert (m : List (String × String)) (k v : String) : List (String × String) :=
  if m.any (fun p => p.1 == k) then
    m.map (fun p => if p.1 == k then (k, v) else p)
  else
    m ++ [(k, v)]

/-- Python `dict(pairs)`: fold `dictInsert` over the pairs.  This models
`dict(zip(headers, values))` in `extract_table`, including the collapse of
duplicate keys (the last value for a repeated key wins). -/
def dictOfPairs (ps : List (String × String)) : List (String × String) :=
  ps.foldl (fun m p => dictInsert m p.1 p.2) []

/-- One `<tr>` element of the scraped table: the raw text content of its
`<th>` cells and of its `<td>` cells, in document order. -/
structure Tr where
  ths : List String
  tds : List String
deriving Repr, DecidableEq

/-- One `<table>` element: its `<tr>` elements (`table.find_all("tr")`). -/
structure Table where
  trs : List Tr
deriving Repr, DecidableEq

/-- A parsed document, reduced to its `<table>` elements in document order;
`soup.find("table")` returns the head of this list. -/
abbrev Doc := List Table

/-- `get_text(strip=True)` on a cell: the cell's text, stripped. -/
def getText (cell : String) : String := pystrip cell

/-- The per-data-row pairing of `extract_table` (`src/scrape.py` lines 71-77):
if the number of values differs from the number of headers, zip only up to the
shorter length, else zip fully; either way build a Python dict. -/
def rowRecord (headers values : List String) : List (String × String) :=
  if values.length ≠ headers.length then
    dictOfPairs (List.zip (headers.take (min values.length headers.length))
      (values.take (min values.length headers.length)))
  else
    dictOfPairs (List.zip headers values)

/-- `extract_table` (`src/scrape.py` lines 50-81): fail when the document has
no `<table>`; headers from the first row's `<th>` cells, falling back to its
`<td>` cells; skip data rows with no `<td>`; pair values to headers via
`rowRecord`. -/
def extract_table (doc : Doc) : Except String (List (List (String × String))) :=
  match doc.head? with
  | none => .error "No <table> found on the page."
  | some table =>
    match table.trs with
    | [] => .ok []
    | row0 :: rest =>
      let headersTh := row0.ths.map getText
      let headers := if headersTh.isEmpty then row0.tds.map getText else headersTh
      .ok (rest.filterMap (fun row =>
        if row.tds.isEmpty then none
        else some (rowRecord headers (row.tds.map getText))))

/-- The probe order of `infer_team`: `("Team", "TEAM", "team")`. -/
def teamKeys : List String := ["Team", "TEAM", "team"]

/-- `infer_team` (`src/scrape.py` lines 93-106): return the stripped value of
the first probe key that is present with a truthy (non-empty) value; fall back
to the stripped first value in insertion order; `"UNKNOWN"` for an empty row. -/
def infer_team (row : List (String × String)) : String :=
  match teamKeys.find? (fun k => ((row.lookup k).getD "") != "") with
  | some k => pystrip ((row.lookup k).getD "")
  | none =>
    match row.head? with
    | some p => pystrip p.2
    | none => "UNKNOWN"

/-! JSON serialization: `json.dumps(row, sort_keys=True, ensure_ascii=False)`
with the default compact separators `", "` and `": "`. -/

/-- The sixteen lowercase hexadecimal digit characters. -/
def hexChars : List Char := "0123456789abcdef".data

/-- Lowercase hexadecimal digit for `n % 16`. -/
def hexChar (n : Nat) : Char := hexChars.getD (n % 16) '0'

/-- Four lowercase hex digits of a value below `0x10000`. -/
def hex4 (n : Nat) : String :=
  String.mk [hexChar (n >>> 12), hexChar (n >>> 8), hexChar (n >>> 4), hexChar n]

/-- JSON escaping of one character as performed by `json.dumps` with
`ensure_ascii=False`: escape the quote, the backslash, and control characters
below `0x20` (with the usual two-character escapes for `\b \t \n \f \r`);
every other character is passed through unchanged. -/
def jsonEscapeChar (c : Char) : String :=
  if c = '"' then "\\\""
  else if c = '\\' then "\\\\"
  else if c = '\x08' then "\\b"
  else if c = '\x09' then "\\t"
  else if c = '\x0a' then "\\n"
  else if c = '\x0c' then "\\f"
  else if c = '\x0d' then "\\r"
  else if c.toNat < 0x20 then "\\u" ++ hex4 c.toNat
  else String.singleton c

/-- A JSON string literal. -/
def jsonString (s : String) : String :=
  "\"" ++ String.join (s.data.map jsonEscapeChar) ++ "\""

/-- One `"key": "value"` member of a JSON object. -/
def jsonMember (p : String × String) : String :=
  jsonString p.1 ++ ": " ++ jsonString p.2

/-- Code-point lexicographic `≤` on character lists: Python's string
comparison. -/
def charListLe : List Char → List Char → Bool
  | [], _ => true
  | _ :: _, [] => false
  | a :: as, b :: bs =>
    if a.toNat < b.toNat then true
    else if b.toNat < a.toNat then false
    else charListLe as bs

/-- Python's `<=` on strings: code-point lexicographic. -/
def strLe (a b : String) : Bool := charListLe a.data b.data

/-- Insert a pair into a list already sorted by key (`String` order is
code-point lexicographic, as in Python). -/
def insertSorted (p : String × String) (l : List (String × String)) :
    List (String × String) :=
  match l with
  | [] => [p]
  | q :: t => if strLe p.1 q.1 then p :: q :: t else q :: insertSorted p t

/-- `sorted(row.items())` as used by `json.dumps(..., sort_keys=True)`:
insertion sort on the keys (the keys of a Python dict are distinct, so
comparing beyond the key never happens). -/
def sortByKey (l : List (String × String)) : List (String × String) :=
  l.foldr insertSorted []

/-- `json.dumps(row, sort_keys=True, ensure_ascii=False)`. -/
def json_dumps_sorted (row : List (String × String)) : String :=
  "\x7b" ++ String.intercalate ", " ((sortByKey row).map jsonMember) ++ "\x7d"

/-! UTF-8 and SHA-256, modelling `payload.encode("utf-8")` and
`hashlib.sha256(bytes).hexdigest()`.  Bytes and 32-bit words are `Nat`s with
explicit reduction modulo `2 ^ 32` where overflow matters. -/

/-- UTF-8 encoding of one code point. -/
def utf8EncodeChar (c : Char) : List Nat :=
  let n := c.toNat
  if n < 0x80 then [n]
  else if n < 0x800 then
    [0xc0 ||| (n >>> 6), 0x80 ||| (n &&& 0x3f)]
  else if n < 0x10000 then
    [0xe0 ||| (n >>> 12), 0x80 ||| ((n >>> 6) &&& 0x3f), 0x80 ||| (n &&& 0x3f)]
  else
    [0xf0 ||| (n >>> 18), 0x80 ||| ((n >>> 12) &&& 0x3f),
      0x80 ||| ((n >>> 6) &&& 0x3f), 0x80 ||| (n &&& 0x3f)]

/-- `s.encode("utf-8")` as a list of bytes. -/
def utf8Encode (s : String) : List Nat :=
  (s.data.map utf8EncodeChar).flatten

/-- Truncation to a 32-bit word. -/
def w32 (x : Nat) : Nat := x % 4294967296

/-- 32-bit right rotation (`0 < n < 32`). -/
def rotr32 (n x : Nat) : Nat := w32 ((x >>> n) ||| (x <<< (32 - n)))

/-- 32-bit bitwise complement. -/
def bnot32 (x : Nat) : Nat := x ^^^ 4294967295

/-- SHA-256 `Ch`. -/
def shaCh (x y z : Nat) : Nat := (x &&& y) ^^^ (bnot32 x &&& z)

/-- SHA-256 `Maj`. -/
def shaMaj (x y z : Nat) : Nat := (x &&& y) ^^^ (x &&& z) ^^^ (y &&& z)

/-- SHA-256 `Σ₀`. -/
def bigSigma0 (x : Nat) : Nat := rotr32 2 x ^^^ rotr32 13 x ^^^ rotr32 22 x

/-- SHA-256 `Σ₁`. -/
def bigSigma1 (x : Nat) : Nat := rotr32 6 x ^^^ rotr32 11 x ^^^ rotr32 25 x

/-- SHA-256 `σ₀`. -/
def smallSigma0 (x : Nat) : Nat := rotr32 7 x ^^^ rotr32 18 x ^^^ (x >>> 3)

/-- SHA-256 `σ₁`. -/
def smallSigma1 (x : Nat) : Nat := rotr32 17 x ^^^ rotr32 19 x ^^^ (x >>> 10)

/-- The SHA-256 round constants (the standard values, here in decimal). -/
def shaK : List Nat :=
  [1116352408, 1899447441, 3049323471, 3921009573, 961987163,
   1508970993, 2453635748, 2870763221, 3624381080, 310598401,
   607225278, 1426881987, 1925078388, 2162078206, 2614888103,
   3248222580, 3835390401, 4022224774, 264347078, 604807628,
   770255983, 1249150122, 1555081692, 1996064986, 2554220882,
   2821834349, 2952996808, 3210313671, 3336571891, 3584528711,
   113926993, 338241895, 666307205, 773529912, 1294757372,
   1396182291, 1695183700, 1986661051, 2177026350, 2456956037,
   2730485921, 2820302411, 3259730800, 3345764771, 3516065817,
   3600352804, 4094571909, 275423344, 430227734, 506948616,
   659060556, 883997877, 958139571, 1322822218, 1537002063,
   1747873779, 1955562222, 2024104815, 2227730452, 2361852424,
   2428436474, 2756734187, 3204031479, 3329325298]

/-- The SHA-256 initial hash value (the standard values, here in decimal). -/
def shaH0 : List Nat :=
  [1779033703, 3144134277, 1013904242, 2773480762,
   1359893119, 2600822924, 528734635, 1541459225]

/-- Big-endian 8-byte encoding of a length in bits. -/
def bigEndian8 (n : Nat) : List Nat :=
  (List.range 8).map (fun i => (n >>> (8 * (7 - i))) % 256)

/-- SHA-256 padding: append `0x80`, zero bytes to 56 mod 64, then the
message length in bits as 8 big-endian bytes. -/
def padMessage (msg : List Nat) : List Nat :=
  msg ++ [0x80] ++ List.replicate ((64 - ((msg.length + 9) % 64)) % 64) 0 ++
    bigEndian8 (8 * msg.length)

/-- Split a byte list into 64-byte blocks (structural recursion on a fuel
that starts at the list length; every step consumes a nonempty list, so the
fuel never runs out). -/
def chunks64Go (fuel : Nat) (l : List Nat) : List (List Nat) :=
  match fuel, l with
  | 0, _ => []
  | _ + 1, [] => []
  | fuel + 1, x :: xs => (x :: xs).take 64 :: chunks64Go fuel ((x :: xs).drop 64)

/-- Split a byte list into 64-byte blocks. -/
def chunks64 (l : List Nat) : List (List Nat) := chunks64Go l.length l

/-- A big-endian 32-bit word from four bytes. -/
def beWord (bs : List Nat) : Nat := bs.foldl (fun acc b => acc * 256 + b) 0

/-- The sixteen 32-bit words of a 64-byte block. -/
def blockWords (block : List Nat) : List Nat :=
  (List.range 16).map (fun i => beWord ((block.drop (4 * i)).take 4))

/-- One extension step of the SHA-256 message schedule. -/
def scheduleStep (ws : List Nat) : List Nat :=
  ws ++ [w32 (smallSigma1 (ws.getD (ws.length - 2) 0) + ws.getD (ws.length - 7) 0 +
    smallSigma0 (ws.getD (ws.length - 15) 0) + ws.getD (ws.length - 16) 0)]

/-- The 64-word SHA-256 message schedule of a block. -/
def schedule (block : List Nat) : List Nat :=
  (List.range 48).foldl (fun ws _ => scheduleStep ws) (blockWords block)

/-- One SHA-256 compression round on the state `[a, b, c, d, e, f, g, h]`. -/
def compressStep (st : List Nat) (kw : Nat × Nat) : List Nat :=
  match st with
  | [a, b, c, d, e, f, g, h] =>
    let t1 := w32 (h + bigSigma1 e + shaCh e f g + kw.1 + kw.2)
    let t2 := w32 (bigSigma0 a + shaMaj a b c)
    [w32 (t1 + t2), a, b, c, w32 (d + t1), e, f, g]
  | _ => st

/-- Process one 64-byte block: 64 compression rounds, then add the result to
the incoming hash value, word by word, modulo `2 ^ 32`. -/
def processBlock (hs block : List Nat) : List Nat :=
  (List.zip hs ((List.zip shaK (schedule block)).foldl compressStep hs)).map
    (fun p => w32 (p.1 + p.2))

/-- The eight 32-bit digest words of a byte message. -/
def sha256words (msg : List Nat) : List Nat :=
  (chunks64 (padMessage msg)).foldl processBlock shaH0

/-- Eight lowercase hex digits of one 32-bit word. -/
def wordHex (w : Nat) : List Char :=
  (List.range 8).map (fun i => hexChar (w >>> (4 * (7 - i))))

/-- `hexdigest()`: the digest words as lowercase hexadecimal. -/
def hexdigest (ws : List Nat) : String :=
  String.mk ((ws.map wordHex).flatten)

/-- `stable_row_hash` (`src/scrape.py` lines 84-90): SHA-256 of the key-sorted
compact JSON serialization of the row, UTF-8 encoded, as lowercase hex. -/
def stable_row_hash (row : List (String × String)) : String :=
  hexdigest (sha256words (utf8Encode (json_dumps_sorted row)))

/-! The store.  `scrape_runs` and `ats_trends` are lists of records;
`scraped_at` instants are seconds since the epoch (UTC), so the generated
column `scrape_date ((scraped_at at time zone 'UTC')::date)` is the day
number `scraped_at / 86400`.  The `bigserial` surrogate `id` column of
`ats_trends` is store-assigned and not modelled; the conflict target
`unique (league, team, scrape_date)` and the `do update set` clause of
`insert_trend_stmt` (`src/scrape.py` lines 174-185) are modelled exactly. -/

/-- One `ats_trends` row. -/
structure Snapshot where
  run_id : Nat
  scraped_at : Nat
  league : String
  team : String
  row_json : List (String × String)
  row_hash : String
deriving Repr, DecidableEq

/-- The generated `scrape_date` column: the UTC calendar day of an instant. -/
def scrape_date (t : Nat) : Nat := t / 86400

/-- The unique key `(league, team, scrape_date)` of an `ats_trends` row. -/
def snapKey (s : Snapshot) : String × String × Nat :=
  (s.league, s.team, scrape_date s.scraped_at)

/-- Boolean key conflict test between two rows. -/
def keyEq (r s : Snapshot) : Bool := decide (snapKey r = snapKey s)

/-- The `do update set` clause of `insert_trend_stmt`: replace `run_id`,
`scraped_at`, `row_json` and `row_hash` of the conflicting row with the
excluded (new) row's values, in place. -/
def overwriteTrend (r s : Snapshot) : Snapshot :=
  { r with
    run_id := s.run_id, scraped_at := s.scraped_at,
    row_json := s.row_json, row_hash := s.row_hash }

/-- `insert_trend_stmt` executed once: `insert ... on conflict
(league, team, scrape_date) do update set ...` against the `ats_trends`
list. -/
def upsert_trend (store : List Snapshot) (s : Snapshot) : List Snapshot :=
  if store.any (fun r => keyEq r s) then
    store.map (fun r => if keyEq r s then overwriteTrend r s else r)
  else
    store ++ [s]

/-- The invariant enforced by `unique (league, team, scrape_date)`:
no two rows of the store share a key. -/
def UniqueDaily (store : List Snapshot) : Prop := (store.map snapKey).Nodup

/-- One `scrape_runs` row. -/
structure Run where
  run_id : Nat
  source : String
  league : String
  url : String
  scraped_at : Nat
deriving Repr, DecidableEq

/-- The row-level state of the database. -/
structure DB where
  runs : List Run
  trends : List Snapshot
deriving Repr, DecidableEq

/-- The league registry of `src/scrape.py` lines 30-35, in iteration order. -/
def LEAGUE_URLS : List (String × String) :=
  [("nba", "https://www.teamrankings.com/nba/trends/ats_trends/"),
   ("nfl", "https://www.teamrankings.com/nfl/trends/ats_trends/"),
   ("ncb", "https://www.teamrankings.com/ncb/trends/ats_trends/"),
   ("ncf", "https://www.teamrankings.com/ncf/trends/ats_trends/")]

/-- `SOURCE_NAME` constant of `src/scrape.py`. -/
def SOURCE_NAME : String := "teamrankings_ats_trends"

/-- `ensure_schema` (`src/scrape.py` lines 109-151) runs only DDL
(`create table if not exists`, an index, a view): on the row-level state it
is the identity. -/
def ensure_schema (db : DB) : DB := db

/-- `insert_run_stmt ... returning run_id`: append one `scrape_runs` row and
return the store-assigned identifier (modelled as the next serial value). -/
def insert_run (db : DB) (source league url : String) (t : Nat) : DB × Nat :=
  ({ db with runs := db.runs ++ [⟨db.runs.length + 1, source, league, url, t⟩] },
   db.runs.length + 1)

/-- The `ats_trends` row built for one extracted row in the per-row loop of
`main` (`src/scrape.py` lines 206-220). -/
def snapshotOf (rid t : Nat) (league : String) (row : List (String × String)) :
    Snapshot :=
  { run_id := rid, scraped_at := t, league := league, team := infer_team row,
    row_json := row, row_hash := stable_row_hash row }

/-- The per-row upsert loop of one league. -/
def upsert_rows (db : DB) (rid t : Nat) (league : String)
    (rows : List (List (String × String))) : DB :=
  rows.foldl
    (fun d row => { d with trends := upsert_trend d.trends (snapshotOf rid t league row) })
    db

/-- One iteration of the league loop of `main`: fetch (already performed;
its result is passed in), extract, record the run, upsert every row, return
the per-league affected-row count. -/
def process_league (db : DB) (league url : String) (fetched : Except String Doc)
    (t : Nat) : Except String (DB × Nat) :=
  match fetched with
  | .error e => .error e
  | .ok doc =>
    match extract_table doc with
    | .error e => .error e
    | .ok rows =>
      .ok (upsert_rows (insert_run db SOURCE_NAME league url t).1
             (insert_run db SOURCE_NAME league url t).2 t league rows,
           rows.length)

/-- The league loop of `main`, accumulating `total_inserted_or_updated`;
any error aborts the remainder of the loop. -/
def run_leagues (db : DB) (inputs : List (String × String × Except String Doc))
    (t : Nat) : Except String (DB × Nat) :=
  match inputs with
  | [] => .ok (db, 0)
  | (league, url, f) :: rest =>
    match process_league db league url f t with
    | .error e => .error e
    | .ok (db1, n) =>
      match run_leagues db1 rest t with
      | .error e => .error e
      | .ok (db2, m) => .ok (db2, n + m)

/-- The body of `with engine.begin()` in `main`: schema bootstrap followed by
the league loop, with one `scraped_at` instant `t` captured beforehand. -/
def main_txn (inputs : List (String × String × Except String Doc)) (t : Nat)
    (db : DB) : Except String (DB × Nat) :=
  run_leagues (ensure_schema db) inputs t

/-- Transaction visibility of `engine.begin()`: a successful body commits its
final state; any exception rolls the database back to the initial state. -/
def visible (db : DB) (r : Except String (DB × Nat)) : DB :=
  match r with
  | .ok p => p.1
  | .error _ => db

/-- The failure modes of one league that the embedding can express:
the fetch failed, or the fetched document has no `<table>` element. -/
def league_fails (inp : String × String × Except String Doc) : Prop :=
  match inp.2.2 with
  | .error _ => True
  | .ok doc => doc = []

/-! Lemmas about `pystrip`. -/

theorem pystrip_data (s : String) :
    (pystrip s).data = List.rdropWhile isPySpace (s.data.dropWhile isPySpace) := rfl

theorem dropWhile_head?_false (p : Char → Bool) (l : List Char) :
    ∀ c, (l.dropWhile p).head? = some c → p c = false := by
  induction l with
  | nil => intro c h; simp at h
  | cons a t ih =>
    intro c h
    rw [List.dropWhile_cons] at h
    split at h
    · exact ih c h
    · rename_i ha
      simp only [List.head?_cons, Option.some.injEq] at h
      subst h
      simpa using ha

theorem dropWhile_eq_self_of_head (p : Char → Bool) (l : List Char)
    (h : ∀ c, l.head? = some c → p c = false) : l.dropWhile p = l := by
  cases l with
  | nil => rfl
  | cons a t =>
    rw [List.dropWhile_cons, if_neg]
    simp [h a rfl]

theorem append_eq_head? {α : Type} (X Y t : List α) (ht : X ++ t = Y)
    (hX : X ≠ []) : Y.head? = X.head? := by
  cases X with
  | nil => exact absurd rfl hX
  | cons a u => rw [← ht]; rfl

theorem rdropWhile_dropWhile_fixed (p : Char → Bool) (l : List Char) :
    (List.rdropWhile p (l.dropWhile p)).dropWhile p = List.rdropWhile p (l.dropWhile p) := by
  apply dropWhile_eq_self_of_head
  intro c hc
  obtain ⟨t, ht⟩ := List.rdropWhile_prefix p (l.dropWhile p)
  have hX : List.rdropWhile p (l.dropWhile p) ≠ [] := by
    intro h0
    rw [h0] at hc
    simp at hc
  have hY : (l.dropWhile p).head? = some c := by
    rw [append_eq_head? _ _ t ht hX]
    exact hc
  exact dropWhile_head?_false p l c hY

theorem pystrip_idem (s : String) : pystrip (pystrip s) = pystrip s := by
  have h1 : (pystrip (pystrip s)).data = (pystrip s).data := by
    rw [pystrip_data, pystrip_data, rdropWhile_dropWhile_fixed]
    exact List.rdropWhile_idempotent _ _
  exact congrArg String.mk h1

/-! Lemmas about the Python dict model. -/

theorem dictInsert_keys (m : List (String × String)) (k v : String) :
    (dictInsert m k v).map Prod.fst =
      if m.any (fun p => p.1 == k) then m.map Prod.fst else m.map Prod.fst ++ [k] := by
  unfold dictInsert
  split
  · simp only [List.map_map]
    apply List.map_congr_left
    intro p _
    simp only [Function.comp_apply]
    split
    · rename_i h
      exact (eq_of_beq h).symm
    · rfl
  · simp

theorem any_key_iff_mem (m : List (String × String)) (k : String) :
    m.any (fun p => p.1 == k) = true ↔ k ∈ m.map Prod.fst := by
  simp [List.any_eq_true, List.mem_map, beq_iff_eq]

theorem dictFold_keys_nodup (ps : List (String × String)) :
    ∀ m : List (String × String), (m.map Prod.fst).Nodup →
      ((ps.foldl (fun m p => dictInsert m p.1 p.2) m).map Prod.fst).Nodup := by
  induction ps with
  | nil => intro m hm; exact hm
  | cons p t ih =>
    intro m hm
    simp only [List.foldl_cons]
    apply ih
    rw [dictInsert_keys]
    split
    · exact hm
    · rename_i hna
      have hnk : p.1 ∉ m.map Prod.fst := by
        intro hk
        exact hna ((any_key_iff_mem m p.1).mpr hk)
      simp [List.nodup_append, hm, hnk]

/-- Every row mapping built by `dictOfPairs` has pairwise-distinct keys. -/
theorem dictOfPairs_keys_nodup (ps : List (String × String)) :
    ((dictOfPairs ps).map Prod.fst).Nodup :=
  dictFold_keys_nodup ps [] (by simp)

theorem dictInsert_length_le (m : List (String × String)) (k v : String) :
    (dictInsert m k v).length ≤ m.length + 1 := by
  unfold dictInsert
  split
  · simp
  · simp

theorem dictFold_length_le (ps : List (String × String)) :
    ∀ m : List (String × String),
      (ps.foldl (fun m p => dictInsert m p.1 p.2) m).length ≤ m.length + ps.length := by
  induction ps with
  | nil => intro m; simp
  | cons p t ih =>
    intro m
    simp only [List.foldl_cons, List.length_cons]
    calc (t.foldl (fun m p => dictInsert m p.1 p.2) (dictInsert m p.1 p.2)).length
        ≤ (dictInsert m p.1 p.2).length + t.length := ih _
      _ ≤ (m.length + 1) + t.length := by
          exact Nat.add_le_add_right (dictInsert_length_le m p.1 p.2) _
      _ = m.length + (t.length + 1) := by omega

theorem dictOfPairs_length_le (ps : List (String × String)) :
    (dictOfPairs ps).length ≤ ps.length := by
  simpa using dictFold_length_le ps []

theorem dictFold_length_eq (ps : List (String × String)) :
    ∀ m : List (String × String),
      (∀ k ∈ ps.map Prod.fst, k ∉ m.map Prod.fst) → (ps.map Prod.fst).Nodup →
      (ps.foldl (fun m p => dictInsert m p.1 p.2) m).length = m.length + ps.length := by
  induction ps with
  | nil => intro m _ _; simp
  | cons p t ih =>
    intro m hdisj hnd
    simp only [List.map_cons, List.nodup_cons] at hnd
    have hpm : p.1 ∉ m.map Prod.fst := hdisj p.1 (by simp)
    have hins : dictInsert m p.1 p.2 = m ++ [(p.1, p.2)] := by
      unfold dictInsert
      rw [if_neg]
      intro ha
      exact hpm ((any_key_iff_mem m p.1).mp ha)
    simp only [List.foldl_cons, hins, List.length_cons]
    rw [ih (m ++ [(p.1, p.2)])]
    · simp only [List.length_append, List.length_cons, List.length_nil]
      omega
    · intro k hk
      simp only [List.map_append, List.mem_append, List.map_cons, List.map_nil,
        List.mem_singleton]
      rintro (hkm | rfl)
      · exact hdisj k (by simp [hk]) hkm
      · exact hnd.1 hk
    · exact hnd.2

/-- When the keys are pairwise distinct, `dictOfPairs` keeps every pair. -/
theorem dictOfPairs_length_eq (ps : List (String × String))
    (h : (ps.map Prod.fst).Nodup) : (dictOfPairs ps).length = ps.length := by
  simpa using dictFold_length_eq ps [] (by simp) h

/-! Lemmas about the key-sorted serialization. -/

theorem char_toNat_inj (a b : Char) (h : a.toNat = b.toNat) : a = b := by
  unfold Char.toNat at h
  exact Char.eq_of_val_eq (UInt32.toNat.inj h)

theorem charListLe_total : ∀ as bs : List Char,
    charListLe as bs = true ∨ charListLe bs as = true := by
  intro as
  induction as with
  | nil => intro bs; left; rfl
  | cons a as ih =>
    intro bs
    cases bs with
    | nil => right; rfl
    | cons b bs =>
      by_cases h1 : a.toNat < b.toNat
      · left; simp [charListLe, h1]
      · by_cases h2 : b.toNat < a.toNat
        · right; simp [charListLe, h2]
        · rcases ih bs with h | h
          · left; simp [charListLe, h1, h2, h]
          · right; simp [charListLe, h1, h2, h]

theorem charListLe_trans : ∀ as bs cs : List Char, charListLe as bs = true →
    charListLe bs cs = true → charListLe as cs = true := by
  intro as
  induction as with
  | nil => intro bs cs _ _; rfl
  | cons a as ih =>
    intro bs cs h1 h2
    cases bs with
    | nil => simp [charListLe] at h1
    | cons b bs =>
      cases cs with
      | nil => simp [charListLe] at h2
      | cons c cs =>
        by_cases hab : a.toNat < b.toNat
        · by_cases hbc : b.toNat < c.toNat
          · simp [charListLe, Nat.lt_trans hab hbc]
          · by_cases hcb : c.toNat < b.toNat
            · simp [charListLe, hbc, hcb] at h2
            · have hac : a.toNat < c.toNat := by omega
              simp [charListLe, hac]
        · by_cases hba : b.toNat < a.toNat
          · simp [charListLe, hab, hba] at h1
          · by_cases hbc : b.toNat < c.toNat
            · have hac : a.toNat < c.toNat := by omega
              simp [charListLe, hac]
            · by_cases hcb : c.toNat < b.toNat
              · simp [charListLe, hbc, hcb] at h2
              · simp only [charListLe, if_neg hab, if_neg hba] at h1
                simp only [charListLe, if_neg hbc, if_neg hcb] at h2
                have hac1 : ¬ a.toNat < c.toNat := by omega
                have hca : ¬ c.toNat < a.toNat := by omega
                simp only [charListLe, if_neg hac1, if_neg hca]
                exact ih bs cs h1 h2

theorem charListLe_antisymm : ∀ as bs : List Char, charListLe as bs = true →
    charListLe bs as = true → as = bs := by
  intro as
  induction as with
  | nil =>
    intro bs h1 h2
    cases bs with
    | nil => rfl
    | cons b bs => simp [charListLe] at h2
  | cons a as ih =>
    intro bs h1 h2
    cases bs with
    | nil => simp [charListLe] at h1
    | cons b bs =>
      by_cases hab : a.toNat < b.toNat
      · have hba : ¬ b.toNat < a.toNat := by omega
        simp [charListLe, hab, hba] at h2
      · by_cases hba : b.toNat < a.toNat
        · simp [charListLe, hab, hba] at h1
        · have hone : a = b := char_toNat_inj a b (by omega)
          subst hone
          simp only [charListLe, if_neg hab] at h1 h2
          rw [ih bs h1 h2]

theorem strLe_total (a b : String) : strLe a b = true ∨ strLe b a = true :=
  charListLe_total a.data b.data

theorem strLe_trans (a b c : String) (h1 : strLe a b = true)
    (h2 : strLe b c = true) : strLe a c = true :=
  charListLe_trans a.data b.data c.data h1 h2

theorem strLe_antisymm (a b : String) (h1 : strLe a b = true)
    (h2 : strLe b a = true) : a = b :=
  congrArg String.mk (charListLe_antisymm a.data b.data h1 h2)

/-- A pair list whose keys appear in nondecreasing order. -/
def KeySorted (l : List (String × String)) : Prop :=
  l.Pairwise (fun p q => strLe p.1 q.1 = true)

theorem insertSorted_perm (p : String × String) (l : List (String × String)) :
    List.Perm (insertSorted p l) (p :: l) := by
  induction l with
  | nil => exact List.Perm.refl _
  | cons q t ih =>
    unfold insertSorted
    split
    · exact List.Perm.refl _
    · exact (ih.cons q).trans (List.Perm.swap p q t)

theorem sortByKey_perm (l : List (String × String)) :
    List.Perm (sortByKey l) l := by
  induction l with
  | nil => exact List.Perm.refl _
  | cons p t ih => exact (insertSorted_perm p (sortByKey t)).trans (ih.cons p)

theorem insertSorted_sorted (p : String × String) (l : List (String × String))
    (h : KeySorted l) : KeySorted (insertSorted p l) := by
  induction l with
  | nil => simp [insertSorted, KeySorted]
  | cons q t ih =>
    rw [KeySorted, List.pairwise_cons] at h
    unfold insertSorted
    split
    · rename_i hle
      rw [KeySorted, List.pairwise_cons]
      refine ⟨?_, List.Pairwise.cons h.1 h.2⟩
      intro r hr
      rcases List.mem_cons.mp hr with rfl | hrt
      · exact hle
      · exact strLe_trans _ _ _ hle (h.1 r hrt)
    · rename_i hgt
      rw [KeySorted, List.pairwise_cons]
      refine ⟨?_, ih h.2⟩
      intro r hr
      rcases List.mem_cons.mp ((insertSorted_perm p t).mem_iff.mp hr) with hrp | hrt
      · rcases strLe_total p.1 q.1 with hc | hc
        · exact absurd hc hgt
        · rw [hrp]
          exact hc
      · exact h.1 r hrt

theorem sortByKey_sorted (l : List (String × String)) : KeySorted (sortByKey l) := by
  induction l with
  | nil => simp [sortByKey, KeySorted]
  | cons p t ih => exact insertSorted_sorted p (sortByKey t) ih

/-- Two key-sorted pair lists that are permutations of each other and have
pairwise-distinct keys are equal. -/
theorem keySorted_perm_nodup_eq :
    ∀ (l₁ l₂ : List (String × String)), List.Perm l₁ l₂ → KeySorted l₁ →
      KeySorted l₂ → (l₁.map Prod.fst).Nodup → l₁ = l₂ := by
  intro l₁
  induction l₁ with
  | nil =>
    intro l₂ hp _ _ _
    exact (hp.symm.eq_nil).symm
  | cons p t ih =>
    intro l₂ hp hs₁ hs₂ hnd
    cases l₂ with
    | nil => exact absurd hp.eq_nil (by simp)
    | cons q u =>
      have hpq : p = q := by
        rcases List.mem_cons.mp (hp.mem_iff.mp (List.mem_cons_self p t)) with h | hpu
        · exact h
        · rcases List.mem_cons.mp (hp.symm.mem_iff.mp (List.mem_cons_self q u)) with h | hqt
          · exact h.symm
          · exfalso
            rw [KeySorted, List.pairwise_cons] at hs₁ hs₂
            have h₁ : strLe p.1 q.1 = true := hs₁.1 q hqt
            have h₂ : strLe q.1 p.1 = true := hs₂.1 p hpu
            have heq : p.1 = q.1 := strLe_antisymm _ _ h₁ h₂
            rw [List.map_cons, List.nodup_cons] at hnd
            exact hnd.1 (heq ▸ List.mem_map_of_mem Prod.fst hqt)
      subst hpq
      have ht : t = u := by
        apply ih u (hp.cons_inv)
        · exact (List.pairwise_cons.mp hs₁).2
        · exact (List.pairwise_cons.mp hs₂).2
        · exact (List.nodup_cons.mp (by simpa using hnd)).2
      rw [ht]

/-- Key-order independence of the canonical serialization input. -/
theorem sortByKey_eq_of_perm (R S : List (String × String))
    (h : List.Perm R S) (hnd : (R.map Prod.fst).Nodup) :
    sortByKey R = sortByKey S := by
  apply keySorted_perm_nodup_eq
  · exact (sortByKey_perm R).trans (h.trans (sortByKey_perm S).symm)
  · exact sortByKey_sorted R
  · exact sortByKey_sorted S
  · exact (((sortByKey_perm R).map Prod.fst).nodup_iff).mpr hnd

theorem hexChar_mem (n : Nat) : hexChar n ∈ hexChars := by
  have h16 : n % 16 < 16 := Nat.mod_lt _ (by decide)
  have : ∀ m < 16, hexChars.getD m '0' ∈ hexChars := by decide
  exact this (n % 16) h16

/-- Every character of a `hexdigest` is a lowercase hexadecimal digit. -/
theorem hexdigest_chars (ws : List Nat) :
    ∀ c ∈ (hexdigest ws).data, c ∈ hexChars := by
  intro c hc
  simp only [hexdigest, List.mem_flatten, List.mem_map] at hc
  obtain ⟨l, ⟨w, _, rfl⟩, hcl⟩ := hc
  simp only [wordHex, List.mem_map] at hcl
  obtain ⟨i, _, rfl⟩ := hcl
  exact hexChar_mem _

/-! Lemmas about the daily upsert. -/

theorem keyEq_iff (r s : Snapshot) : keyEq r s = true ↔ snapKey r = snapKey s := by
  simp [keyEq]

theorem snapKey_overwriteTrend (r s : Snapshot) (h : snapKey r = snapKey s) :
    snapKey (overwriteTrend r s) = snapKey s := by
  simp only [snapKey, overwriteTrend, Prod.mk.injEq] at h ⊢
  exact ⟨h.1, h.2.1, trivial⟩

theorem keyEq_self (s : Snapshot) : keyEq s s = true := by
  simp [keyEq]

theorem upsert_trend_keys_match (store : List Snapshot) (s : Snapshot)
    (h : store.any (fun r => keyEq r s) = true) :
    (upsert_trend store s).map snapKey = store.map snapKey := by
  unfold upsert_trend
  rw [if_pos h]
  simp only [List.map_map]
  apply List.map_congr_left
  intro r _
  simp only [Function.comp_apply]
  split
  · rename_i hk
    have hks := (keyEq_iff r s).mp hk
    rw [snapKey_overwriteTrend r s hks]
    exact hks.symm
  · rfl

/-- One upsert preserves the `unique (league, team, scrape_date)` invariant. -/
theorem upsert_trend_unique (store : List Snapshot) (s : Snapshot)
    (h : UniqueDaily store) : UniqueDaily (upsert_trend store s) := by
  by_cases hc : store.any (fun r => keyEq r s) = true
  · unfold UniqueDaily
    rw [upsert_trend_keys_match store s hc]
    exact h
  · unfold UniqueDaily upsert_trend
    rw [if_neg hc]
    have hnk : snapKey s ∉ store.map snapKey := by
      rintro hmem
      rcases List.mem_map.mp hmem with ⟨r, hr, hkey⟩
      apply hc
      rw [List.any_eq_true]
      exact ⟨r, hr, (keyEq_iff r s).mpr hkey⟩
    have h' : (store.map snapKey).Nodup := h
    simp [List.nodup_append, h', hnk]

theorem foldl_upsert_trend_unique (ss : List Snapshot) :
    ∀ store : List Snapshot, UniqueDaily store →
      UniqueDaily (ss.foldl upsert_trend store) := by
  induction ss with
  | nil => intro store h; exact h
  | cons s t ih =>
    intro store h
    exact ih _ (upsert_trend_unique store s h)

theorem filter_key_unique (store : List Snapshot) (h : UniqueDaily store)
    (s : Snapshot) :
    store.filter (fun r => keyEq r s) =
      match store.find? (fun r => keyEq r s) with
      | some r0 => [r0]
      | none => [] := by
  induction store with
  | nil => rfl
  | cons a t ih =>
    rw [UniqueDaily, List.map_cons, List.nodup_cons] at h
    by_cases hk : keyEq a s = true
    · have ht : t.filter (fun r => keyEq r s) = [] := by
        rw [List.filter_eq_nil_iff]
        intro r hr hkr
        apply h.1
        have : snapKey r = snapKey s := (keyEq_iff r s).mp hkr
        have ha : snapKey a = snapKey s := (keyEq_iff a s).mp hk
        rw [ha, ← this]
        exact List.mem_map_of_mem snapKey hr
      simp [List.filter_cons, List.find?_cons, hk, ht]
    · have hk' : keyEq a s = false := by simpa using hk
      simp only [List.filter_cons, List.find?_cons, hk', if_false]
      exact ih h.2

theorem exists_key_in_upsert (store : List Snapshot) (s : Snapshot) :
    ∃ x ∈ upsert_trend store s, keyEq x s = true := by
  unfold upsert_trend
  by_cases hc : store.any (fun r => keyEq r s) = true
  · rw [if_pos hc]
    rcases List.any_eq_true.mp hc with ⟨r0, hr0, hk0⟩
    refine ⟨overwriteTrend r0 s, ?_, ?_⟩
    · rw [List.mem_map]
      exact ⟨r0, hr0, by rw [if_pos hk0]⟩
    · rw [keyEq_iff]
      exact snapKey_overwriteTrend r0 s ((keyEq_iff r0 s).mp hk0)
  · rw [if_neg hc]
    exact ⟨s, by simp, keyEq_self s⟩

theorem overwriteTrend_eq_of_key (x s : Snapshot) (h : snapKey x = snapKey s) :
    overwriteTrend x s = s := by
  obtain ⟨r1, t1, l1, m1, j1, h1⟩ := x
  obtain ⟨r2, t2, l2, m2, j2, h2⟩ := s
  simp only [snapKey, Prod.mk.injEq] at h
  simp only [overwriteTrend]
  simp_all

/-- The rows of the store that conflict with `s` after upserting `s`:
exactly one, namely the overwritten (or freshly inserted) one. -/
theorem upsert_trend_filter (store : List Snapshot) (s : Snapshot)
    (h : UniqueDaily store) :
    (upsert_trend store s).filter (fun r => keyEq r s) = [s] := by
  have hu : UniqueDaily (upsert_trend store s) := upsert_trend_unique store s h
  rw [filter_key_unique _ hu s]
  obtain ⟨x, hx, hkx⟩ := exists_key_in_upsert store s
  have hsome : ((upsert_trend store s).find? (fun r => keyEq r s)).isSome := by
    rw [List.find?_isSome]
    exact ⟨x, hx, hkx⟩
  obtain ⟨y, hy⟩ := Option.isSome_iff_exists.mp hsome
  rw [hy]
  have hky : keyEq y s = true := by
    have := List.find?_some hy
    simpa using this
  have hyk : snapKey y = snapKey s := (keyEq_iff y s).mp hky
  have hmem : y ∈ upsert_trend store s := List.mem_of_find?_eq_some hy
  -- y is either an element updated in place or the appended new row; in both
  -- cases its non-key fields are those of `s` because its key matches `s`.
  have hy_eq : y = s := by
    unfold upsert_trend at hmem
    by_cases hc : store.any (fun r => keyEq r s) = true
    · rw [if_pos hc] at hmem
      rcases List.mem_map.mp hmem with ⟨r, _, hr⟩
      by_cases hkr : keyEq r s = true
      · rw [if_pos hkr] at hr
        rw [← hr]
        exact overwriteTrend_eq_of_key r s ((keyEq_iff r s).mp hkr)
      · rw [if_neg hkr] at hr
        rw [← hr] at hky
        exact absurd hky hkr
    · rw [if_neg hc] at hmem
      rcases List.mem_append.mp hmem with hms | hms
      · exfalso
        apply hc
        rw [List.any_eq_true]
        exact ⟨y, hms, hky⟩
      · simpa using hms
  rw [hy_eq]

/-! Lemmas about the orchestrator. -/

theorem mem_upsert_trend (store : List Snapshot) (s x : Snapshot)
    (hx : x ∈ upsert_trend store s) : x ∈ store ∨ x.scraped_at = s.scraped_at := by
  unfold upsert_trend at hx
  by_cases hc : store.any (fun r => keyEq r s) = true
  · rw [if_pos hc] at hx
    rcases List.mem_map.mp hx with ⟨r, hr, hrx⟩
    by_cases hk : keyEq r s = true
    · rw [if_pos hk] at hrx
      right
      rw [← hrx]
      rfl
    · rw [if_neg hk] at hrx
      exact Or.inl (hrx ▸ hr)
  · rw [if_neg hc] at hx
    rcases List.mem_append.mp hx with hxs | hxs
    · exact Or.inl hxs
    · right
      rw [List.mem_singleton.mp hxs]

theorem upsert_rows_runs (rows : List (List (String × String))) :
    ∀ (db : DB) (rid t : Nat) (league : String),
      (upsert_rows db rid t league rows).runs = db.runs := by
  induction rows with
  | nil => intro db rid t league; rfl
  | cons r rest ih =>
    intro db rid t league
    simp only [upsert_rows, List.foldl_cons]
    exact ih _ rid t league

theorem upsert_rows_trends_mem (rows : List (List (String × String))) :
    ∀ (db : DB) (rid t : Nat) (league : String) (x : Snapshot),
      x ∈ (upsert_rows db rid t league rows).trends →
      x ∈ db.trends ∨ x.scraped_at = t := by
  induction rows with
  | nil => intro db rid t league x hx; exact Or.inl hx
  | cons r rest ih =>
    intro db rid t league x hx
    simp only [upsert_rows, List.foldl_cons] at hx
    rcases ih _ rid t league x hx with hmem | hstamp
    · rcases mem_upsert_trend _ _ _ hmem with hmem2 | hstamp2
      · exact Or.inl hmem2
      · exact Or.inr hstamp2
    · exact Or.inr hstamp

theorem upsert_rows_trends_unique (rows : List (List (String × String)))
    (db : DB) (rid t : Nat) (league : String) (h : UniqueDaily db.trends) :
    UniqueDaily (upsert_rows db rid t league rows).trends := by
  induction rows generalizing db with
  | nil => exact h
  | cons r rest ih =>
    simp only [upsert_rows, List.foldl_cons]
    exact ih _ (upsert_trend_unique _ _ h)

theorem process_league_ok (db : DB) (league url : String)
    (fetched : Except String Doc) (t : Nat) (db1 : DB) (n : Nat)
    (h : process_league db league url fetched t = .ok (db1, n)) :
    db1.runs = db.runs ++ [⟨db.runs.length + 1, SOURCE_NAME, league, url, t⟩] ∧
    (∀ x ∈ db1.trends, x ∈ db.trends ∨ x.scraped_at = t) := by
  cases fetched with
  | error e => simp [process_league] at h
  | ok doc =>
    cases hx : extract_table doc with
    | error e => simp [process_league, hx] at h
    | ok rows =>
      simp only [process_league, hx, Except.ok.injEq, Prod.mk.injEq] at h
      obtain ⟨hdb, -⟩ := h
      subst hdb
      constructor
      · rw [upsert_rows_runs]
        rfl
      · intro x hx2
        exact upsert_rows_trends_mem rows (insert_run db SOURCE_NAME league url t).1
          (insert_run db SOURCE_NAME league url t).2 t league x hx2

theorem run_leagues_stamps (inputs : List (String × String × Except String Doc)) :
    ∀ (db : DB) (t : Nat) (db2 : DB) (n : Nat),
      run_leagues db inputs t = .ok (db2, n) →
      (∀ r ∈ db2.runs, r ∉ db.runs → r.scraped_at = t) ∧
      (∀ s ∈ db2.trends, s ∉ db.trends → s.scraped_at = t) := by
  induction inputs with
  | nil =>
    intro db t db2 n h
    simp only [run_leagues, Except.ok.injEq, Prod.mk.injEq] at h
    obtain ⟨hdb, -⟩ := h
    subst hdb
    exact ⟨fun r hmem hnot => absurd hmem hnot, fun s hmem hnot => absurd hmem hnot⟩
  | cons i rest ih =>
    intro db t db2 n h
    obtain ⟨league, url, f⟩ := i
    cases hp : process_league db league url f t with
    | error e => simp [run_leagues, hp] at h
    | ok p =>
      obtain ⟨db1, n1⟩ := p
      cases hr : run_leagues db1 rest t with
      | error e => simp [run_leagues, hp, hr] at h
      | ok q =>
        obtain ⟨dbq, m⟩ := q
        simp only [run_leagues, hp, hr, Except.ok.injEq, Prod.mk.injEq] at h
        obtain ⟨hdb, -⟩ := h
        subst hdb
        obtain ⟨hpruns, hptrends⟩ := process_league_ok db league url f t db1 n1 hp
        obtain ⟨ihruns, ihtrends⟩ := ih db1 t dbq m hr
        constructor
        · intro r hr2 hr3
          by_cases hmid : r ∈ db1.runs
          · rw [hpruns] at hmid
            rcases List.mem_append.mp hmid with hcase | hcase
            · exact absurd hcase hr3
            · rw [List.mem_singleton.mp hcase]
          · exact ihruns r hr2 hmid
        · intro s hs2 hs3
          by_cases hmid : s ∈ db1.trends
          · rcases hptrends s hmid with hcase | hcase
            · exact absurd hcase hs3
            · exact hcase
          · exact ihtrends s hs2 hmid

theorem extract_table_ok_of_nonempty (doc : Doc) (h : doc ≠ []) :
    ∃ rows, extract_table doc = .ok rows := by
  cases doc with
  | nil => exact absurd rfl h
  | cons tb rest =>
    obtain ⟨trs⟩ := tb
    cases trs with
    | nil => exact ⟨[], rfl⟩
    | cons row0 rows => exact ⟨_, rfl⟩

theorem process_league_error_iff (db : DB) (league url : String)
    (f : Except String Doc) (t : Nat) :
    (∃ e, process_league db league url f t = .error e) ↔
      league_fails (league, url, f) := by
  constructor
  · rintro ⟨e, he⟩
    cases f with
    | error e2 => exact trivial
    | ok doc =>
      simp only [league_fails]
      by_contra hne
      obtain ⟨rows, hrows⟩ := extract_table_ok_of_nonempty doc hne
      simp [process_league, hrows] at he
  · intro hf
    cases f with
    | error e2 => exact ⟨e2, rfl⟩
    | ok doc =>
      simp only [league_fails] at hf
      subst hf
      exact ⟨"No <table> found on the page.", rfl⟩

theorem run_leagues_error_of_fail
    (inputs : List (String × String × Except String Doc)) :
    ∀ (db : DB) (t : Nat), (∃ i ∈ inputs, league_fails i) →
      ∃ e, run_leagues db inputs t = .error e := by
  induction inputs with
  | nil =>
    intro db t h
    obtain ⟨i, hi, -⟩ := h
    exact absurd hi (List.not_mem_nil i)
  | cons j rest ih =>
    intro db t h
    obtain ⟨league, url, f⟩ := j
    by_cases hj : league_fails (league, url, f)
    · obtain ⟨e, he⟩ := (process_league_error_iff db league url f t).mpr hj
      exact ⟨e, by simp [run_leagues, he]⟩
    · obtain ⟨i, hi, hfails⟩ := h
      have hirest : i ∈ rest := by
        rcases List.mem_cons.mp hi with rfl | hr
        · exact absurd hfails hj
        · exact hr
      cases hp : process_league db league url f t with
      | error e => exact ⟨e, by simp [run_leagues, hp]⟩
      | ok p =>
        obtain ⟨db1, n1⟩ := p
        obtain ⟨e, he⟩ := ih db1 t ⟨i, hirest, hfails⟩
        exact ⟨e, by simp [run_leagues, hp, he]⟩

theorem run_leagues_ok_of_no_fail
    (inputs : List (String × String × Except String Doc)) :
    ∀ (db : DB) (t : Nat), (∀ i ∈ inputs, ¬ league_fails i) →
      ∃ p, run_leagues db inputs t = .ok p := by
  induction inputs with
  | nil => intro db t _; exact ⟨(db, 0), rfl⟩
  | cons j rest ih =>
    intro db t h
    obtain ⟨league, url, f⟩ := j
    have hj : ¬ league_fails (league, url, f) := h _ (List.mem_cons_self _ _)
    cases hp : process_league db league url f t with
    | error e =>
      exact absurd ((process_league_error_iff db league url f t).mp ⟨e, hp⟩) hj
    | ok p =>
      obtain ⟨db1, n1⟩ := p
      obtain ⟨⟨db2, m⟩, hq⟩ := ih db1 t (fun i hi => h i (List.mem_cons_of_mem _ hi))
      exact ⟨(db2, n1 + m), by simp [run_leagues, hp, hq]⟩

theorem rowRecord_keys_nodup (hs vs : List String) :
    ((rowRecord hs vs).map Prod.fst).Nodup := by
  unfold rowRecord
  split
  · exact dictOfPairs_keys_nodup _
  · exact dictOfPairs_keys_nodup _

/-- The probing structure of `infer_team`, spelled out. -/
theorem infer_team_unfold (row : List (String × String)) :
    infer_team row =
      (if ((row.lookup "Team").getD "") != "" then pystrip ((row.lookup "Team").getD "")
       else if ((row.lookup "TEAM").getD "") != "" then pystrip ((row.lookup "TEAM").getD "")
       else if ((row.lookup "team").getD "") != "" then pystrip ((row.lookup "team").getD "")
       else
         match row.head? with
         | some p => pystrip p.2
         | none => "UNKNOWN") := by
  unfold infer_team teamKeys
  cases h1 : ((row.lookup "Team").getD "") != "" with
  | true => simp [List.find?_cons, h1]
  | false =>
    cases h2 : ((row.lookup "TEAM").getD "") != "" with
    | true => simp [List.find?_cons, h1, h2]
    | false =>
      cases h3 : ((row.lookup "team").getD "") != "" with
      | true => simp [List.find?_cons, h1, h2, h3]
      | false => simp [List.find?_cons, h1, h2, h3]

/-! The claims. -/

/-- C1: under the overwrite-by-day policy, any sequence of upserts preserves
"at most one row per (league, team, scrape_date)", and upserting twice in a
row for the same key with different payloads leaves exactly one row for that
key, carrying the run_id, scraped_at, row_payload and row_hash of the second
write. -/
theorem ats_trends_daily_overwrite_C1 (store : List Snapshot)
    (h : UniqueDaily store) :
    (∀ ss : List Snapshot, UniqueDaily (ss.foldl upsert_trend store)) ∧
    (∀ s1 s2 : Snapshot, snapKey s1 = snapKey s2 → s1.row_json ≠ s2.row_json →
      (upsert_trend (upsert_trend store s1) s2).filter (fun r => keyEq r s2) = [s2]) := by
  constructor
  · intro ss
    exact foldl_upsert_trend_unique ss store h
  · intro s1 s2 hkey _
    have h1 : UniqueDaily (upsert_trend store s1) := upsert_trend_unique store s1 h
    exact upsert_trend_filter (upsert_trend store s1) s2 h1

/-- C1 witness: two same-key upserts into the empty store leave exactly the
second snapshot for that key. -/
theorem ats_trends_daily_overwrite_C1_w :
    (upsert_trend (upsert_trend []
        ⟨1, 100, "nba", "Lakers", [("a", "1")], "h1"⟩)
        ⟨2, 200, "nba", "Lakers", [("a", "2")], "h2"⟩).filter
      (fun r => keyEq r ⟨2, 200, "nba", "Lakers", [("a", "2")], "h2"⟩) =
      [⟨2, 200, "nba", "Lakers", [("a", "2")], "h2"⟩] :=
  (ats_trends_daily_overwrite_C1 [] (by simp [UniqueDaily])).2
    ⟨1, 100, "nba", "Lakers", [("a", "1")], "h1"⟩
    ⟨2, 200, "nba", "Lakers", [("a", "2")], "h2"⟩
    (by simp [snapKey, scrape_date]) (by simp)

/-- C2: the row fingerprint is invariant under permutation of the payload's
key insertion order, it is by definition the SHA-256 digest of the key-sorted
serialization of the payload (a function of the payload only), and it is
rendered as lowercase hexadecimal. -/
theorem stable_row_hash_key_order_C2 :
    (∀ R S : List (String × String), List.Perm R S → (R.map Prod.fst).Nodup →
      stable_row_hash R = stable_row_hash S) ∧
    (∀ R : List (String × String),
      stable_row_hash R = hexdigest (sha256words (utf8Encode (json_dumps_sorted R)))) ∧
    (∀ R : List (String × String), ∀ c ∈ (stable_row_hash R).data, c ∈ hexChars) := by
  refine ⟨?_, fun R => rfl, fun R => hexdigest_chars _⟩
  intro R S hperm hnd
  unfold stable_row_hash json_dumps_sorted
  rw [sortByKey_eq_of_perm R S hperm hnd]

/-- C2 witness: swapping the insertion order of two keys leaves the
fingerprint unchanged. -/
theorem stable_row_hash_key_order_C2_w :
    stable_row_hash [("b", "2"), ("a", "1")] = stable_row_hash [("a", "1"), ("b", "2")] :=
  stable_row_hash_key_order_C2.1 [("b", "2"), ("a", "1")] [("a", "1"), ("b", "2")]
    (List.Perm.swap ("a", "1") ("b", "2") []) (by simp)

/-- C3: `infer_team` probes the keys `"Team"`, `"TEAM"`, `"team"` in that
order (a probe succeeds on a present, non-empty value); when none of the
three keys is present it returns the (stripped) value of the first key in
insertion order; on an empty mapping it returns `"UNKNOWN"`; the result is
always trimmed, and key `"Team"` with value `" Lakers "` resolves to
`"Lakers"`. -/
theorem infer_team_spec_C3 :
    (∀ (row : List (String × String)) (v : String),
      row.lookup "Team" = some v → v ≠ "" → infer_team row = pystrip v) ∧
    (∀ (row : List (String × String)) (v : String),
      row.lookup "Team" = none → row.lookup "TEAM" = some v → v ≠ "" →
        infer_team row = pystrip v) ∧
    (∀ (row : List (String × String)) (v : String),
      row.lookup "Team" = none → row.lookup "TEAM" = none →
        row.lookup "team" = some v → v ≠ "" → infer_team row = pystrip v) ∧
    (∀ (p : String × String) (rest : List (String × String)),
      (p :: rest).lookup "Team" = none → (p :: rest).lookup "TEAM" = none →
        (p :: rest).lookup "team" = none → infer_team (p :: rest) = pystrip p.2) ∧
    infer_team [] = "UNKNOWN" ∧
    (∀ row : List (String × String), pystrip (infer_team row) = infer_team row) ∧
    infer_team [("Team", " Lakers ")] = "Lakers" := by
  refine ⟨?_, ?_, ?_, ?_, rfl, ?_, rfl⟩
  · intro row v h hv
    rw [infer_team_unfold]
    simp [h, hv]
  · intro row v h1 h2 hv
    rw [infer_team_unfold]
    simp [h1, h2, hv]
  · intro row v h1 h2 h3 hv
    rw [infer_team_unfold]
    simp [h1, h2, h3, hv]
  · intro p rest h1 h2 h3
    rw [infer_team_unfold]
    simp [h1, h2, h3]
  · intro row
    rw [infer_team_unfold]
    split
    · exact pystrip_idem _
    · split
      · exact pystrip_idem _
      · split
        · exact pystrip_idem _
        · split
          · exact pystrip_idem _
          · rfl

/-- C3 witness: the probe clause applied to the spec's example row. -/
theorem infer_team_spec_C3_w :
    List.lookup "Team" [("Team", " Lakers ")] = some " Lakers " ∧
    infer_team [("Team", " Lakers ")] = pystrip " Lakers " :=
  ⟨rfl, infer_team_spec_C3.1 [("Team", " Lakers ")] " Lakers " rfl (by decide)⟩

/-- C4 counterexample: a table whose header cells both have empty text yields
a row mapping whose single key is the empty string — `extract_table` assigns
no positional placeholder labels (the claimed renaming does not exist in the
code), so keys can be empty and distinct empty headers collapse. -/
theorem extract_table_empty_header_cex_C4 :
    extract_table [Table.mk [Tr.mk ["", ""] [], Tr.mk [] [" x ", "y"]]] =
      .ok [[("", "y")]] ∧
    "" ∈ ([("", "y")] : List (String × String)).map Prod.fst := by
  exact ⟨rfl, by simp⟩

/-- C4 (amended): `extract_table` does not rename empty header slots; it
builds each row mapping as a Python dict over the header texts as-is, so the
keys of every extracted row mapping are pairwise distinct but may be empty
(an empty header slot yields the empty-string key, and equal header labels
collapse with the last paired value winning). -/
theorem extract_table_keys_nodup_C4 (doc : Doc)
    (rows : List (List (String × String))) (h : extract_table doc = .ok rows) :
    ∀ r ∈ rows, (r.map Prod.fst).Nodup := by
  intro r hr
  cases doc with
  | nil => simp [extract_table] at h
  | cons tb rest =>
    obtain ⟨trs⟩ := tb
    cases trs with
    | nil =>
      simp only [extract_table, List.head?_cons, Except.ok.injEq] at h
      subst h
      simp at hr
    | cons row0 rest2 =>
      simp only [extract_table, List.head?_cons, Except.ok.injEq] at h
      subst h
      rcases List.mem_filterMap.mp hr with ⟨row, _, hrow⟩
      by_cases ht : row.tds.isEmpty
      · simp [ht] at hrow
      · simp only [ht, Bool.false_eq_true, if_false, Option.some.injEq] at hrow
        rw [← hrow]
        exact rowRecord_keys_nodup _ _

/-- C4 witness: the distinct-keys property at a concrete extraction. -/
theorem extract_table_keys_nodup_C4_w :
    (([("", "y")] : List (String × String)).map Prod.fst).Nodup :=
  extract_table_keys_nodup_C4 [Table.mk [Tr.mk ["", ""] [], Tr.mk [] [" x ", "y"]]]
    [[("", "y")]] rfl [("", "y")] (by simp)

/-- C5 counterexample: headers `["A", "A", "B"]` against values `["1", "2"]`
(a mismatch, truncated length `min 2 3 = 2`) produce a mapping of length 1,
not of the truncated length, because the duplicated header collapses in the
dict. -/
theorem rowRecord_truncated_cex_C5 :
    extract_table [Table.mk [Tr.mk ["A", "A", "B"] [], Tr.mk [] ["1", "2"]]] =
      .ok [[("A", "2")]] ∧
    ([("A", "2")] : List (String × String)).length = 1 ∧ (1 : Nat) ≠ min 2 3 := by
  exact ⟨rfl, rfl, by decide⟩

/-- C5 (amended): on a column-count mismatch the extractor pairs headers to
values positionally up to the shorter of the two lengths (neither failing nor
dropping the row), producing a mapping of at most that truncated length —
and of exactly that length when the truncated header labels are pairwise
distinct. -/
theorem rowRecord_truncates_C5 (hs vs : List String)
    (h : vs.length ≠ hs.length) :
    rowRecord hs vs =
      dictOfPairs (List.zip (hs.take (min vs.length hs.length))
        (vs.take (min vs.length hs.length))) ∧
    (rowRecord hs vs).length ≤ min vs.length hs.length ∧
    ((hs.take (min vs.length hs.length)).Nodup →
      (rowRecord hs vs).length = min vs.length hs.length) := by
  have hdef : rowRecord hs vs =
      dictOfPairs (List.zip (hs.take (min vs.length hs.length))
        (vs.take (min vs.length hs.length))) := by
    unfold rowRecord
    rw [if_pos h]
  have hzlen : (List.zip (hs.take (min vs.length hs.length))
      (vs.take (min vs.length hs.length))).length = min vs.length hs.length := by
    rw [List.length_zip, List.length_take, List.length_take]
    omega
  refine ⟨hdef, ?_, ?_⟩
  · rw [hdef]
    calc (dictOfPairs _).length
        ≤ (List.zip (hs.take (min vs.length hs.length))
            (vs.take (min vs.length hs.length))).length := dictOfPairs_length_le _
      _ = min vs.length hs.length := hzlen
  · intro hnd
    rw [hdef, dictOfPairs_length_eq, hzlen]
    rw [List.map_fst_zip]
    · exact hnd
    · rw [List.length_take, List.length_take]
      omega

/-- C5 witness: three headers against two values yield a mapping of length
two when the first two header labels are distinct. -/
theorem rowRecord_truncates_C5_w : (rowRecord ["A", "B", "C"] ["1", "2"]).length = 2 := by
  have := (rowRecord_truncates_C5 ["A", "B", "C"] ["1", "2"] (by decide)).2.2 (by decide)
  simpa using this

/-- C7: `extract_table` fails with the `NoTableFound` error exactly when the
parsed document contains no table element; whenever a first table exists it
returns an extracted sequence instead of raising. -/
theorem extract_table_no_table_iff_C7 (doc : Doc) :
    (extract_table doc = .error "No <table> found on the page." ↔ doc = []) ∧
    (doc ≠ [] → ∃ rows, extract_table doc = .ok rows) := by
  refine ⟨⟨?_, ?_⟩, extract_table_ok_of_nonempty doc⟩
  · intro h
    by_contra hne
    obtain ⟨rows, hrows⟩ := extract_table_ok_of_nonempty doc hne
    rw [hrows] at h
    exact absurd h (by simp)
  · rintro rfl
    rfl

/-- C7 witness: the error occurs on the empty document and does not occur
when a (contentless) table is present. -/
theorem extract_table_no_table_iff_C7_w :
    extract_table ([] : Doc) = .error "No <table> found on the page." ∧
    extract_table [Table.mk []] ≠ .error "No <table> found on the page." := by
  constructor
  · exact (extract_table_no_table_iff_C7 []).1.mpr rfl
  · intro h
    have := (extract_table_no_table_iff_C7 [Table.mk []]).1.mp h
    simp at this

/-- C10: a probe key that is present with an empty value is skipped exactly
like an absent key: resolution falls through to the next case variant, and
when no variant carries a non-empty value it falls back to the stripped
first value in insertion order (or `"UNKNOWN"` on an empty mapping). -/
theorem infer_team_empty_value_C10 :
    (∀ (row : List (String × String)) (v : String), row.lookup "Team" = some "" →
      row.lookup "TEAM" = some v → v ≠ "" → infer_team row = pystrip v) ∧
    (∀ row : List (String × String), (∀ k ∈ teamKeys, ((row.lookup k).getD "") = "") →
      infer_team row =
        match row.head? with
        | some p => pystrip p.2
        | none => "UNKNOWN") := by
  constructor
  · intro row v h1 h2 hv
    rw [infer_team_unfold]
    simp [h1, h2, hv]
  · intro row h
    have hT := h "Team" (by simp [teamKeys])
    have hT2 := h "TEAM" (by simp [teamKeys])
    have ht := h "team" (by simp [teamKeys])
    rw [infer_team_unfold]
    simp [hT, hT2, ht]

/-- C10 witness: `"Team"` present but empty falls through to `"TEAM"`. -/
theorem infer_team_empty_value_C10_w :
    infer_team [("Team", ""), ("TEAM", "Suns")] = pystrip "Suns" :=
  infer_team_empty_value_C10.1 [("Team", ""), ("TEAM", "Suns")] "Suns" rfl rfl
    (by decide)

/-- C6: all store writes of one invocation live inside one transactional
scope: if any league's step fails, the invocation errors and the visible
database state is exactly the initial one (no Run, no Snapshot survives);
when no league fails, the invocation commits. -/
theorem main_txn_all_or_nothing_C6
    (inputs : List (String × String × Except String Doc)) (t : Nat) (db : DB) :
    ((∃ i ∈ inputs, league_fails i) →
      (∃ e, main_txn inputs t db = .error e) ∧
      visible db (main_txn inputs t db) = db) ∧
    ((∀ i ∈ inputs, ¬ league_fails i) → ∃ p, main_txn inputs t db = .ok p) := by
  constructor
  · intro hfail
    obtain ⟨e, he⟩ := run_leagues_error_of_fail inputs (ensure_schema db) t hfail
    have he2 : main_txn inputs t db = .error e := he
    refine ⟨⟨e, he2⟩, ?_⟩
    rw [he2]
    rfl
  · intro hok
    exact run_leagues_ok_of_no_fail inputs (ensure_schema db) t hok

/-- C6 witness: a failing fetch for the single league rolls the store back to
its initial (empty) state. -/
theorem main_txn_all_or_nothing_C6_w :
    visible ⟨[], []⟩ (main_txn [("nba", "u", Except.error "boom")] 0 ⟨[], []⟩) =
      ⟨[], []⟩ :=
  ((main_txn_all_or_nothing_C6 [("nba", "u", Except.error "boom")] 0 ⟨[], []⟩).1
    ⟨("nba", "u", Except.error "boom"), by simp, trivial⟩).2

/-- C8: a league whose extraction yields zero rows performs zero Snapshot
upserts (the trends table is untouched), still records exactly one Run, and
contributes an affected-row count of 0 to the reported total. -/
theorem zero_rows_one_run_C8 (db : DB) (league url : String) (doc : Doc)
    (t : Nat) (h : extract_table doc = .ok []) :
    process_league db league url (.ok doc) t =
      .ok ({ runs := db.runs ++ [⟨db.runs.length + 1, SOURCE_NAME, league, url, t⟩],
             trends := db.trends }, 0) := by
  simp only [process_league, h]
  rfl

/-- C8 witness: a table with no rows records one Run and no Snapshot. -/
theorem zero_rows_one_run_C8_w :
    process_league ⟨[], []⟩ "nba" "u" (.ok [Table.mk []]) 7 =
      .ok (⟨[⟨1, SOURCE_NAME, "nba", "u", 7⟩], []⟩, 0) := by
  have := zero_rows_one_run_C8 ⟨[], []⟩ "nba" "u" [Table.mk []] 7 rfl
  simpa using this

/-- C9: one invocation captures a single scraped_at instant `t` before the
league loop, and every Run and every Snapshot written during the invocation
carries exactly that timestamp. -/
theorem single_scraped_at_C9 (inputs : List (String × String × Except String Doc))
    (t : Nat) (db db2 : DB) (n : Nat) (h : main_txn inputs t db = .ok (db2, n)) :
    (∀ r ∈ db2.runs, r ∉ db.runs → r.scraped_at = t) ∧
    (∀ s ∈ db2.trends, s ∉ db.trends → s.scraped_at = t) :=
  run_leagues_stamps inputs (ensure_schema db) t db2 n h

/-- C9 witness: the snapshot written by a one-league invocation carries the
invocation's captured instant. -/
theorem single_scraped_at_C9_w :
    (snapshotOf 1 5 "nba" [("Team", "Lakers"), ("W", "1-0")]).scraped_at = 5 :=
  (single_scraped_at_C9
    [("nba", "u", Except.ok [Table.mk [Tr.mk ["Team", "W"] [], Tr.mk [] ["Lakers", "1-0"]]])]
    5 ⟨[], []⟩
    ⟨[⟨1, SOURCE_NAME, "nba", "u", 5⟩],
      [snapshotOf 1 5 "nba" [("Team", "Lakers"), ("W", "1-0")]]⟩ 1 rfl).2
    (snapshotOf 1 5 "nba" [("Team", "Lakers"), ("W", "1-0")]) (by simp) (by simp)

/-- Sanity check of the SHA-256 embedding against the standard `"abc"` test
vector. -/
theorem sha256_test_vector_abc :
    hexdigest (sha256words (utf8Encode "abc")) =
      "ba7816bf8f01cfea414140de5dae2223b00361a396177a9cb410ff61f20015ad" := by
  rfl

/-- Sanity check of the full fingerprint pipeline against
`hashlib.sha256(json.dumps({"b": "2", "a": "1"}, sort_keys=True,
ensure_ascii=False).encode("utf-8")).hexdigest()`. -/
theorem stable_row_hash_example :
    stable_row_hash [("b", "2"), ("a", "1")] =
      "0e09eeab5bdeab40e2af08a4432d53de29fc2ba94dfa38fae0871d749681cf68" := by
  rfl

end Scrape
